import Mathlib

/-!
Verification of the RAG_TG_MAI core against its specification.

Shallow embedding conventions:
* Python text is modelled as `Str := List Char`; `str.strip()` becomes `strip`,
  `"\n\n".split` becomes `split_on_sep`, `"\n\n".join` becomes `List.intercalate sep`.
* The HuggingFace tokenizer (external collaborator) is modelled by abstract
  `encode`/`decode` functions carried in the `Tokenizer` structure; the
  constructor's `overlap >= max_tokens` check becomes the structure invariant
  `overlap_lt`.
* The Milvus collection (external collaborator) is modelled as a list of rows
  plus a primary-key counter; each store method additionally returns the list
  of store operations it performed (load / delete / insert / flush), so that
  "performs no store access" style properties are statable.
* Floating point values (embeddings, backoff seconds) are modelled as `ℚ`.
-/

/-- Python text modelled as a list of characters. -/
abbrev Str := List Char

/-- The whitespace characters recognised by Python's `str.strip()`
(ASCII subset, matching the characters that occur in this code base). -/
def isWS (c : Char) : Bool :=
  c = ' ' || c = '\t' || c = '\n' || c = '\r' || c = '\x0b' || c = '\x0c'

/-- Left part of Python `str.strip()`. -/
def strip_left (s : Str) : Str := s.dropWhile isWS

/-- Right part of Python `str.strip()`. -/
def strip_right (s : Str) : Str := (s.reverse.dropWhile isWS).reverse

/-- Python `str.strip()`: drop leading and trailing whitespace. -/
def strip (s : Str) : Str := strip_right (strip_left s)

/-- The block separator `"\n\n"` used by the chunker. -/
def sep : Str := ['\n', '\n']

/-- Python `md.split("\n\n")`: non-overlapping left-to-right split on the
two-newline separator. -/
def split_on_sep : Str → List Str
  | [] => [[]]
  | '\n' :: '\n' :: rest => [] :: split_on_sep rest
  | c :: rest =>
    match split_on_sep rest with
    | [] => [[c]]
    | h :: t => (c :: h) :: t

/-- `Tokenizer._md_to_blocks`:
`[b.strip() for b in md.split("\n\n") if b.strip()]`. -/
def md_to_blocks (md : Str) : List Str :=
  ((split_on_sep md).map strip).filter (fun b => b ≠ [])

/-- `Tokenizer` (src/backend/gemma_services/tokenizer.py).  `encode`/`decode`
are the external HuggingFace tokenizer; the constructor raises unless
`overlap < max_tokens`, which becomes the invariant `overlap_lt`. -/
structure Tokenizer where
  encode : Str → List Nat
  decode : List Nat → Str
  max_tokens : Nat
  overlap : Nat
  overlap_lt : overlap < max_tokens

/-- `Tokenizer.count_tokens`: length of the encoding. -/
def Tokenizer.count_tokens (tok : Tokenizer) (text : Str) : Nat :=
  (tok.encode text).length

/-- The `while start < len(toks)` loop of `Tokenizer._split_long_block`,
written with explicit fuel so that it is structural.  Each iteration advances
`start` by `max_tokens - overlap ≥ 1`, so `toks.length` iterations always
suffice; the fuel never runs out before the loop condition fails. -/
def split_loop_fuel (tok : Tokenizer) (toks : List Nat) : Nat → Nat → List Str
  | 0, _ => []
  | fuel + 1, start =>
    if start < toks.length then
      strip (tok.decode ((toks.drop start).take tok.max_tokens)) ::
        split_loop_fuel tok toks fuel (start + (tok.max_tokens - tok.overlap))
    else []

/-- `Tokenizer._split_long_block`: hard-split an over-long block into
overlapping token windows of size `max_tokens`, stride `max_tokens - overlap`,
decoding (and stripping) each window. -/
def Tokenizer.split_long_block (tok : Tokenizer) (text : Str) : List Str :=
  split_loop_fuel tok (tok.encode text) (tok.encode text).length 0

/-- The block-accumulation loop of `Tokenizer.chunk_markdown`, with the
mutable `chunks`/`current` state turned into recursion: `current` is the
running accumulation, the returned list is the chunks emitted from this point
on. -/
def chunk_aux (tok : Tokenizer) : Str → List Str → List Str
  | current, [] => if current = [] then [] else [current]
  | current, block :: rest =>
    let candidate := if current = [] then block else strip (current ++ sep ++ block)
    if tok.count_tokens candidate ≤ tok.max_tokens then
      chunk_aux tok candidate rest
    else
      (if current = [] then [] else [current]) ++
        (if tok.max_tokens < tok.count_tokens block then
          tok.split_long_block block ++ chunk_aux tok [] rest
        else
          chunk_aux tok block rest)

/-- `Tokenizer.chunk_markdown`. -/
def chunk_markdown (tok : Tokenizer) (md : Str) : List Str :=
  chunk_aux tok [] (md_to_blocks md)

/-- Errors raised by the store wrapper: Python `assert` failures and
`ValueError`s (messages elided). -/
inductive MilvusErr where
  | assertionError
  | valueError
deriving DecidableEq, Repr

/-- One conjunct of a Milvus boolean filter expression, as built by
`Milvus.search` / `Milvus.delete_doc` (`"doc_id == n"`, `"source_path == s"`,
`"owner_id == n"`); kept structured instead of rendered to a string. -/
inductive Cond where
  | docEq (d : Int)
  | pathEq (p : Str)
  | ownerEq (o : Int)
deriving DecidableEq, Repr

/-- A stored chunk row, following the collection schema
(id / owner_id / doc_id / chunk_id / source_path / section / content /
embedding). -/
structure Row where
  pk : Nat
  owner_id : Option Int
  doc_id : Int
  chunk_id : Nat
  source_path : Str
  «section» : Option Str
  content : Str
  embedding : List ℚ
deriving DecidableEq, Repr

/-- The Milvus collection state: rows plus the auto-id counter. -/
structure Store where
  rows : List Row
  nextPk : Nat
deriving DecidableEq, Repr

/-- Store operations, recorded as a trace by every wrapper method. -/
inductive StoreOp where
  | load
  | deleteOp (cs : List Cond)
  | insertOp (n : Nat)
  | flush
deriving DecidableEq, Repr

/-- Whether a row satisfies one filter conjunct. -/
def matchesCond (r : Row) : Cond → Bool
  | .docEq d => r.doc_id = d
  | .pathEq p => r.source_path = p
  | .ownerEq o => r.owner_id = some o

/-- Whether a row satisfies the full conjunction (`" and ".join(expr_parts)`). -/
def matchesExpr (cs : List Cond) (r : Row) : Bool :=
  cs.all (matchesCond r)

/-- The `expr_parts` list built by `Milvus.search`: `doc_id` if present,
else `source_path` if present; then `owner_id` if present. -/
def search_expr_parts (doc_id : Option Int) (source_path : Option Str)
    (owner_id : Option Int) : List Cond :=
  (match doc_id, source_path with
   | some d, _ => [Cond.docEq d]
   | none, some p => [Cond.pathEq p]
   | none, none => []) ++
  (match owner_id with
   | some o => [Cond.ownerEq o]
   | none => [])

/-- The `expr_parts` list built by `Milvus.delete_doc` (same shape as
`Milvus.search`'s). -/
def delete_expr_parts (doc_id : Option Int) (source_path : Option Str)
    (owner_id : Option Int) : List Cond :=
  (match doc_id, source_path with
   | some d, _ => [Cond.docEq d]
   | none, some p => [Cond.pathEq p]
   | none, none => []) ++
  (match owner_id with
   | some o => [Cond.ownerEq o]
   | none => [])

/-- The rows a `Milvus.search` call with the given filter can return:
the stored rows satisfying the filter conjunction (ranking among them is done
by the external ANN index). -/
def search_candidates (st : Store) (cs : List Cond) : List Row :=
  st.rows.filter (matchesExpr cs)

/-- `Milvus.delete_doc`.  Mirrors the source order: the collection is loaded
first, then the `doc_id`/`source_path` presence check runs, then the filter is
built and the matching rows deleted; a flush happens only when the deleted
count is non-zero.  Returns the result (new store and deleted count, or the
validation error) together with the trace of store operations performed. -/
def delete_doc (st : Store) (doc_id : Option Int) (source_path : Option Str)
    (owner_id : Option Int) :
    Except MilvusErr (Store × Nat) × List StoreOp :=
  -- self.collection.load() runs before the validation check
  if doc_id = none ∧ source_path = none then
    (.error .valueError, [.load])
  else
    let cs := delete_expr_parts doc_id source_path owner_id
    let deleted := (st.rows.filter (matchesExpr cs)).length
    let st' : Store := { st with rows := st.rows.filter (fun r => !matchesExpr cs r) }
    (.ok (st', deleted),
      [.load, .deleteOp cs] ++ if deleted = 0 then [] else [.flush])

/-- The rows inserted by one `Milvus.add_chunks` call: chunk ids are the
0-based positions, primary keys are assigned sequentially by the store. -/
def mk_rows (startPk : Nat) (owner_id : Option Int) (doc_id : Int)
    (source_path : Str) (secs : List (Option Str)) (contents : List Str)
    (embs : List (List ℚ)) : List Row :=
  (List.range contents.length).map (fun i =>
    { pk := startPk + i
      owner_id := owner_id
      doc_id := doc_id
      chunk_id := i
      source_path := source_path
      «section» := secs.getD i none
      content := contents.getD i []
      embedding := embs.getD i [] })

/-- `Milvus.add_chunks`.  The `assert len(contents) == len(embeddings)` comes
first; then the sections length check, which is guarded by the *truthiness* of
`sections` (`if sections and len(sections) != len(contents)`), so an empty
sections list skips it and is replaced by empty-string sections
(`sections or ["" for _ in range(n)]`). -/
def add_chunks (st : Store) (owner_id : Option Int) (doc_id : Int)
    (source_path : Str) (sections : List (Option Str)) (contents : List Str)
    (embeddings : List (List ℚ)) :
    Except MilvusErr (Store × List Nat) × List StoreOp :=
  if contents.length ≠ embeddings.length then
    (.error .assertionError, [])
  else if sections ≠ [] ∧ sections.length ≠ contents.length then
    (.error .valueError, [])
  else
    let n := contents.length
    let secs := if sections = [] then List.replicate n (some ([] : Str)) else sections
    let newRows := mk_rows st.nextPk owner_id doc_id source_path secs contents embeddings
    let st' : Store := { rows := st.rows ++ newRows, nextPk := st.nextPk + n }
    (.ok (st', (List.range n).map (fun i => st.nextPk + i)),
      [.insertOp n, .flush])

/-- `IndexResult` (src/backend/utils/file_pipeline.py). -/
structure IndexResult where
  doc_id : Int
  chunk_ids : List Nat
  source_path : Str
  owner_id : Option Int
deriving DecidableEq, Repr

/-- `owner_value = int(owner_id) if owner_id is not None else -1`. -/
def owner_value_of (owner_id : Option Int) : Int :=
  match owner_id with
  | some o => o
  | none => -1

/-- The collaborators of `RAGPipeline`: the tokenizer, the embedder
(`embed(texts) -> one vector per text`), and `_file_to_markdown`
(conversion + file read, externalised as `convert : path -> (doc_id, md_text)`). -/
structure PipelineEnv where
  tok : Tokenizer
  embed : List Str → List (List ℚ)
  convert : Str → Int × Str

/-- `RAGPipeline.index_file`: convert, chunk; on zero chunks return an empty
result without touching the store; otherwise delete existing chunks for
(doc_id, owner_id), embed, and insert with sequential chunk indices,
the section applied uniformly, and owner value `-1` when `owner_id` is None. -/
def index_file (env : PipelineEnv) (st : Store) (input_path : Str)
    («section» : Str) (owner_id : Option Int) :
    Except MilvusErr (IndexResult × Store) × List StoreOp :=
  let conv := env.convert input_path
  let doc_id := conv.1
  let chunks := chunk_markdown env.tok conv.2
  if chunks = [] then
    (.ok ({ doc_id := doc_id, chunk_ids := [], source_path := input_path,
            owner_id := owner_id }, st), [])
  else
    match delete_doc st (some doc_id) none owner_id with
    | (.error e, ops) => (.error e, ops)
    | (.ok (st1, _removed), ops1) =>
      let embeddings := env.embed chunks
      let sections : List (Option Str) := List.replicate chunks.length (some «section»)
      let owner_value := owner_value_of owner_id
      match add_chunks st1 (some owner_value) doc_id input_path sections chunks embeddings with
      | (.error e, ops2) => (.error e, ops1 ++ ops2)
      | (.ok (st2, ids), ops2) =>
        (.ok ({ doc_id := doc_id, chunk_ids := ids, source_path := input_path,
                owner_id := some owner_value }, st2), ops1 ++ ops2)

/-- One hex digit to its character, for `hexdigest` prefixes. -/
def hexChar (d : Fin 16) : Char :=
  ("0123456789abcdef".data).getD d.val '0'

/-- Python `int(hex_string, 16)` over a list of hex digit values. -/
def hex_val (digits : List (Fin 16)) : Nat :=
  digits.foldl (fun a d => 16 * a + d.val) 0

/-- Python `text.replace("\r\n", "\n")` (left to right, non-overlapping). -/
def replace_crlf : Str → Str
  | [] => []
  | '\r' :: '\n' :: rest => '\n' :: replace_crlf rest
  | c :: rest => c :: replace_crlf rest

/-- `convert_to_md` (src/backend/utils/markdown.py), with the external pieces
made explicit: `sha1hex` is `hashlib.sha1(...).hexdigest()` on the file's raw
content bytes, `stem` is the input file's stem, and `converted` is the text
produced by the MarkItDown collaborator (or the docx fallback).  Returns the
output file's base name, the markdown text actually written to (and later read
back from) disk, and the document id `int(full_hash[:10], 16)`. -/
def convert_to_md (sha1hex : List Nat → List (Fin 16)) (stem : Str)
    (bytes : List Nat) (converted : Str) : Str × Str × Nat :=
  let full_hash := sha1hex bytes
  let short_hash := full_hash.take 10
  let base := stem ++ '-' :: short_hash.map hexChar
  let md_text := strip (replace_crlf converted) ++ ['\n']
  (base, md_text, hex_val short_hash)

/-- A normalized search hit as produced by `RAGPipeline.search`
(`entity.get` may return null, hence the Option fields). -/
structure Hit where
  score : ℚ
  doc_id : Option Int
  chunk_id : Option Nat
  «section» : Option Str
  source_path : Option Str
  content : Option Str
deriving DecidableEq, Repr

/-- The numbered header of one context block:
`"[idx] source=<path>"` plus `" chunk=<id>"` when a chunk id is present;
`source_path` falls back to `"unknown"` when missing or empty. -/
def hit_header (idx : Nat) (h : Hit) : Str :=
  let source := match h.source_path with
    | some s => if s = [] then "unknown".data else s
    | none => "unknown".data
  ('[' :: (Nat.repr idx).data ++ "] source=".data ++ source) ++
    (match h.chunk_id with
     | some c => " chunk=".data ++ (Nat.repr c).data
     | none => [])

/-- The loop body of `RAGService._format_context`: walk the first
`context_limit` hits with a 1-based index that advances on every hit, skipping
hits whose stripped content is blank. -/
def context_blocks : Nat → List Hit → List Str
  | _, [] => []
  | idx, h :: rest =>
    let content := strip (h.content.getD [])
    if content = [] then context_blocks (idx + 1) rest
    else (hit_header idx h ++ '\n' :: content) :: context_blocks (idx + 1) rest

/-- `RAGService._format_context`: `"\n\n".join(chunks).strip()`. -/
def format_context (context_limit : Nat) (hits : List Hit) : Str :=
  strip (List.intercalate sep (context_blocks 1 (hits.take context_limit)))

/-- `RAGService._build_user_prompt`. -/
def build_user_prompt (question context : Str) : Str :=
  "Контекст:\n".data ++ context ++ "\n\n".data ++
    "Вопрос пользователя:\n".data ++ question ++ "\n\n".data ++
    "Сформулируй понятный ответ, обязательно опираясь на контекст выше.".data

/-- The collaborators and configuration of `RAGService`: the pipeline search
(embedding plus vector search, externalised), the language-model call
(`GigaChatClient.get_answer`), the context limit (`max(1, context_limit)` is
applied by the constructor), and the system prompt. -/
structure ServiceCfg where
  search : Str → Nat → List Hit
  llm : Str → Str → Str
  context_limit : Nat
  system_prompt : Str

/-- `RAGService.answer`.  Returns the `(answer_text, hits)` pair together with
the number of calls made to the language-model collaborator. -/
def answer (cfg : ServiceCfg) (question : Str) (top_k : Nat) :
    (Str × List Hit) × Nat :=
  let hits := cfg.search question top_k
  if hits.isEmpty then (([], []), 0)
  else
    let context := format_context cfg.context_limit hits
    if context = [] then (([], hits), 0)
    else
      let user_prompt := build_user_prompt question context
      ((cfg.llm cfg.system_prompt user_prompt, hits), 1)

/-- The terminal error of `GigaChatClient.get_answer`: `GigaChatLLMError`
wrapping the last underlying failure (underlying exceptions modelled as their
message strings). -/
inductive GigaErr where
  | wrapped (last_err : Str)
deriving DecidableEq, Repr

/-- The retry loop of `GigaChatClient.get_answer`.  `invoke i` is the result
of the i-th `self._client.invoke(msgs)` call (0-based): either the returned
optional content or the raised exception.  `remaining` counts the retries
still allowed (`retries - attempt` in the source, so `attempt < self.retries`
iff `remaining > 0`).  Returns the result together with the list of sleep
durations, in order. -/
def get_answer_aux (invoke : Nat → Except Str (Option Str)) (backoff : ℚ) :
    Nat → Nat → Except GigaErr Str × List ℚ
  | remaining, attempt =>
    match invoke attempt with
    | .ok content => (.ok (strip (content.getD [])), [])
    | .error e =>
      match remaining with
      | 0 => (.error (.wrapped e), [])
      | r + 1 =>
        let wait := backoff * ((attempt : ℚ) + 1)
        let next := get_answer_aux invoke backoff r (attempt + 1)
        (next.1, wait :: next.2)

/-- `GigaChatClient.get_answer`: up to `retries` retries with linear backoff
(`wait = backoff_sec * (attempt + 1)`), starting at attempt 0. -/
def get_answer (invoke : Nat → Except Str (Option Str)) (retries : Nat)
    (backoff : ℚ) : Except GigaErr Str × List ℚ :=
  get_answer_aux invoke backoff retries 0

/-- One accumulation step of `chunk_markdown`:
`candidate = (current + "\n\n" + block).strip() if current else block`. -/
def acc_step (cur b : Str) : Str :=
  if cur = [] then b else strip (cur ++ sep ++ b)

/-- The accumulated chunk built from a run of consecutive blocks. -/
def acc_of (bs : List Str) : Str := bs.foldl acc_step []

/-- A group in the decomposition of `chunk_markdown`'s output: either a run of
consecutive blocks merged into one accumulated chunk, or a single over-long
block that was hard-split. -/
inductive ChunkGrp where
  | run (bs : List Str)
  | hard (b : Str)

/-- The source blocks a group consumes. -/
def ChunkGrp.src : ChunkGrp → List Str
  | .run bs => bs
  | .hard b => [b]

/-- The chunks a group emits. -/
def ChunkGrp.out (tok : Tokenizer) : ChunkGrp → List Str
  | .run bs => [acc_of bs]
  | .hard b => tok.split_long_block b

/-- Well-formedness of a chunk group: a run consumes at least one block. -/
def ChunkGrp.wf : ChunkGrp → Prop
  | .run bs => bs ≠ []
  | .hard _ => True

/-- A block as produced by `md_to_blocks`: non-empty and in stripped form. -/
def GoodBlock (b : Str) : Prop := b ≠ [] ∧ ∃ t, b = strip t

/-! Concrete collaborator instances used by witnesses and counterexamples. -/

/-- A character-level tokenizer: each character is one token, decoding is the
inverse.  Used to exhibit concrete chunker runs (a whitespace-only token
window then decodes to a whitespace-only string, as with a real tokenizer). -/
def ctok : Tokenizer :=
  { encode := fun s => s.map Char.toNat
    decode := fun ts => ts.map Char.ofNat
    max_tokens := 3
    overlap := 1
    overlap_lt := by decide }

/-- A tokenizer whose decode always produces the non-blank string `"x"`. -/
def xtok : Tokenizer :=
  { encode := fun s => s.map Char.toNat
    decode := fun _ => ['x']
    max_tokens := 3
    overlap := 1
    overlap_lt := by decide }

/-- A tokenizer with the production `max_tokens=250, overlap=50` settings whose
encoding of a text has one token per character. -/
def tok600 : Tokenizer :=
  { encode := fun s => List.range s.length
    decode := fun _ => ['x']
    max_tokens := 250
    overlap := 50
    overlap_lt := by decide }

/-- A 600-token block for the hard-split example. -/
def text600 : Str := List.replicate 600 'a'

/-- A pipeline environment over concrete collaborators: conversion yields
document id 7 with markdown `"hi"`, embeddings are empty vectors. -/
def envW : PipelineEnv :=
  { tok := ctok
    embed := fun ts => ts.map (fun _ => [])
    convert := fun _ => (7, "hi".data) }

/-- A store holding one stale chunk of document 7 (owner 2). -/
def stW : Store :=
  { rows := [{ pk := 0, owner_id := some 2, doc_id := 7, chunk_id := 0,
               source_path := "old".data, «section» := none,
               content := "x".data, embedding := [] }]
    nextPk := 1 }

/-- A search hit whose content is blank. -/
def hitW : Hit :=
  { score := 0, doc_id := some 1, chunk_id := some 0, «section» := none,
    source_path := some ("p".data), content := some ("  ".data) }

/-- A service whose search always returns the single blank hit `hitW`. -/
def cfgW : ServiceCfg :=
  { search := fun _ _ => [hitW]
    llm := fun _ _ => "LLM OUTPUT".data
    context_limit := 5
    system_prompt := [] }

/-- A language-model invocation that fails on every attempt. -/
def invW : Nat → Except Str (Option Str) := fun _ => .error ("boom".data)

/-- The markdown chunks the pipeline computes for a file. -/
def pipeline_chunks (env : PipelineEnv) (input_path : Str) : List Str :=
  chunk_markdown env.tok (env.convert input_path).2

/-- The document id the pipeline obtains for a file. -/
def pipeline_doc_id (env : PipelineEnv) (input_path : Str) : Int :=
  (env.convert input_path).1

/-- The stored rows belonging to one (document, owner) pair. -/
def pair_rows (docId ov : Int) (rows : List Row) : List Row :=
  rows.filter (fun r =>
    matchesCond r (Cond.docEq docId) && matchesCond r (Cond.ownerEq ov))

/-- The stored rows belonging to one document, across all owners. -/
def doc_rows (docId : Int) (rows : List Row) : List Row :=
  rows.filter (fun r => matchesCond r (Cond.docEq docId))

/-- The rows a successful `index_file` call inserts. -/
def inserted_rows (env : PipelineEnv) (st : Store) (input_path : Str)
    («section» : Str) (owner_id : Option Int) : List Row :=
  mk_rows st.nextPk (some (owner_value_of owner_id))
    (pipeline_doc_id env input_path) input_path
    (List.replicate (pipeline_chunks env input_path).length (some «section»))
    (pipeline_chunks env input_path)
    (env.embed (pipeline_chunks env input_path))

/-! ## Claim theorems -/

/-- C3 (counterexample): as stated, the claim is false — `delete_doc` called
with neither `doc_id` nor `source_path` does fail with a validation error and
performs no delete and no flush, but it *does* access the store: the source
calls `self.collection.load()` before the validation check, so the operation
trace of the failing call is `[load]`, not empty. -/
theorem delete_doc_missing_ids_counterexample :
    delete_doc { rows := [], nextPk := 0 } none none none =
      (.error .valueError, [StoreOp.load]) ∧
    StoreOp.load ∈ (delete_doc { rows := [], nextPk := 0 } none none none).2 := by
  constructor
  · rfl
  · decide

/-- C3 (amended): `delete_doc` with neither `doc_id` nor `source_path` fails
with a validation error and performs no store mutation — no delete and no
flush — but it does issue a collection load before validating, for every
store state and owner filter. -/
theorem delete_doc_missing_ids (st : Store) (owner_id : Option Int) :
    delete_doc st none none owner_id = (.error .valueError, [StoreOp.load]) := by
  rfl

/-- C4 (counterexample): as stated, the claim is false — with `sections` given
as the empty list and a single content (so `len(sections) ≠ len(contents)`),
`add_chunks` does not fail: the truthiness guard `if sections and ...` skips
the length check, the empty list is replaced by `[""] * n`, and the insert and
flush proceed. -/
theorem add_chunks_sections_counterexample :
    (([] : List (Option Str)).length ≠ [("a".data : Str)].length) ∧
    add_chunks { rows := [], nextPk := 0 } (some 1) 5 ("p".data)
        [] [("a".data)] [[(0 : ℚ)]] =
      (.ok ({ rows := [{ pk := 0, owner_id := some 1, doc_id := 5, chunk_id := 0,
                         source_path := "p".data, «section» := some [],
                         content := "a".data, embedding := [(0 : ℚ)] }],
              nextPk := 1 }, [0]),
        [StoreOp.insertOp 1, StoreOp.flush]) := by
  constructor
  · decide
  · rfl

/-- C4 (amended): `add_chunks` with mismatched `contents`/`embeddings` lengths
fails (assertion error) before any store mutation, and with a *non-empty*
`sections` of mismatched length fails with a validation error before any store
mutation; an empty `sections` list is treated as absent and replaced by
empty-string section labels, so no length check applies to it. -/
theorem add_chunks_validation (st : Store) (owner_id : Option Int)
    (doc_id : Int) (source_path : Str) (sections : List (Option Str))
    (contents : List Str) (embeddings : List (List ℚ)) :
    (contents.length ≠ embeddings.length →
      add_chunks st owner_id doc_id source_path sections contents embeddings =
        (.error .assertionError, [])) ∧
    (contents.length = embeddings.length → sections ≠ [] →
      sections.length ≠ contents.length →
      add_chunks st owner_id doc_id source_path sections contents embeddings =
        (.error .valueError, [])) := by
  constructor
  · intro h
    simp [add_chunks, h]
  · intro h hs hl
    simp [add_chunks, h, hs, hl]
    omega

/-- C4 (witness): the amended validation fires on a concrete mismatched call. -/
theorem add_chunks_validation_witness :
    add_chunks { rows := [], nextPk := 0 } none 1 [] [] [("a".data)] [] =
      (.error .assertionError, []) :=
  (add_chunks_validation { rows := [], nextPk := 0 } none 1 [] [] [("a".data)] []).1
    (by decide)

/-- C7: the document id computed by `convert_to_md` is a pure function of the
source file's raw content bytes — for one and the same hash collaborator, two
conversions of byte-identical inputs yield the same integer `doc_id`, whatever
the file stem or the converter's text output. -/
theorem doc_id_content_addressed (sha1hex : List Nat → List (Fin 16))
    (stem₁ stem₂ : Str) (conv₁ conv₂ : Str) (bytes : List Nat) :
    (convert_to_md sha1hex stem₁ bytes conv₁).2.2 =
      (convert_to_md sha1hex stem₂ bytes conv₂).2.2 := by
  rfl

/-- C8: search filters compose as a logical AND (a row matches the expression
iff it matches every conjunct); when both `doc_id` and `source_path` are
supplied the expression is the one built from `doc_id` alone, ignoring
`source_path`; the owner condition is present exactly when `owner_id` is
supplied, and with it omitted the match outcome is independent of a row's
owner, so all owners are searched. -/
theorem search_filter_composition (d : Int) (p : Str) (o : Int)
    (doc_id : Option Int) (source_path : Option Str) (owner_id : Option Int)
    (o' : Option Int) (r : Row) (cs : List Cond) :
    (search_expr_parts (some d) (some p) owner_id =
      search_expr_parts (some d) none owner_id) ∧
    (matchesExpr cs r = true ↔ ∀ c ∈ cs, matchesCond r c = true) ∧
    (Cond.ownerEq o ∈ search_expr_parts doc_id source_path (some o)) ∧
    (matchesExpr (search_expr_parts doc_id source_path none)
        { r with owner_id := o' } =
      matchesExpr (search_expr_parts doc_id source_path none) r) := by
  refine ⟨rfl, ?_, ?_, ?_⟩
  · simp [matchesExpr, List.all_eq_true]
  · cases doc_id <;> cases source_path <;> simp [search_expr_parts]
  · cases doc_id <;> cases source_path <;>
      simp [search_expr_parts, matchesExpr, matchesCond]

/-- C8 (witness): the composition facts instantiated on a concrete row and
filter. -/
theorem search_filter_composition_witness :
    (search_expr_parts (some 3) (some ("a".data)) (some 9) =
      search_expr_parts (some 3) none (some 9)) ∧
    (matchesExpr [Cond.docEq 3] { pk := 0, owner_id := some 9, doc_id := 3, chunk_id := 0, source_path := [], «section» := none, content := [], embedding := [] } = true ↔
      ∀ c ∈ [Cond.docEq 3], matchesCond { pk := 0, owner_id := some 9, doc_id := 3, chunk_id := 0, source_path := [], «section» := none, content := [], embedding := [] } c = true) ∧
    (Cond.ownerEq 9 ∈ search_expr_parts (some 3) (some ("a".data)) (some 9)) ∧
    (matchesExpr (search_expr_parts (some 3) (some ("a".data)) none) { pk := 0, owner_id := some 7, doc_id := 3, chunk_id := 0, source_path := [], «section» := none, content := [], embedding := [] } =
      matchesExpr (search_expr_parts (some 3) (some ("a".data)) none) { pk := 0, owner_id := some 9, doc_id := 3, chunk_id := 0, source_path := [], «section» := none, content := [], embedding := [] }) :=
  search_filter_composition 3 ("a".data) 9 (some 3) (some ("a".data)) (some 9)
    (some 7)
    { pk := 0, owner_id := some 9, doc_id := 3, chunk_id := 0, source_path := [], «section» := none, content := [], embedding := [] }
    [Cond.docEq 3]

/-- One unfolding of the hard-split loop. -/
theorem split_loop_fuel_succ (tok : Tokenizer) (toks : List Nat)
    (fuel start : Nat) :
    split_loop_fuel tok toks (fuel + 1) start =
      if start < toks.length then
        strip (tok.decode ((toks.drop start).take tok.max_tokens)) ::
          split_loop_fuel tok toks fuel (start + (tok.max_tokens - tok.overlap))
      else [] := rfl

/-- C6: a 600-token block with `max_tokens = 250, overlap = 50` hard-splits
into exactly three chunks, decoded (and stripped) from the token windows
starting at offsets 0, 200 and 400, each of window size 250 (stride
`250 - 50 = 200`). -/
theorem split_long_block_600 (tok : Tokenizer) (text : Str)
    (hmax : tok.max_tokens = 250) (hov : tok.overlap = 50)
    (hlen : (tok.encode text).length = 600) :
    tok.split_long_block text =
      [strip (tok.decode (((tok.encode text).drop 0).take 250)),
       strip (tok.decode (((tok.encode text).drop 200).take 250)),
       strip (tok.decode (((tok.encode text).drop 400).take 250))] := by
  simp only [Tokenizer.split_long_block]
  rw [hlen]
  rw [show (600 : Nat) = 599 + 1 from rfl, split_loop_fuel_succ, hmax, hov, hlen]
  norm_num
  rw [show (599 : Nat) = 598 + 1 from rfl, split_loop_fuel_succ, hmax, hov, hlen]
  norm_num
  rw [show (598 : Nat) = 597 + 1 from rfl, split_loop_fuel_succ, hmax, hov, hlen]
  norm_num
  rw [show (597 : Nat) = 596 + 1 from rfl, split_loop_fuel_succ, hlen]
  norm_num

set_option maxRecDepth 10000 in
/-- C6 (witness): the three-window split on a concrete 600-token block. -/
theorem split_long_block_600_witness :
    ((tok600.encode text600).length = 600) ∧
    tok600.split_long_block text600 =
      [strip (tok600.decode (((tok600.encode text600).drop 0).take 250)),
       strip (tok600.decode (((tok600.encode text600).drop 200).take 250)),
       strip (tok600.decode (((tok600.encode text600).drop 400).take 250))] := by
  have hlen : (tok600.encode text600).length = 600 := by
    have h1 : tok600.encode text600 = List.range text600.length := rfl
    rw [h1, List.length_range]
    show (List.replicate 600 'a').length = 600
    rw [List.length_replicate]
  exact ⟨hlen, split_long_block_600 tok600 text600 rfl rfl hlen⟩

/-- Retry-loop invariant: if every invocation in the remaining window fails,
the loop returns the terminal error wrapping the last failure and sleeps
`backoff * attempt_number` before each retry. -/
theorem get_answer_aux_all_fail (invoke : Nat → Except Str (Option Str))
    (backoff : ℚ) (es : Nat → Str) :
    ∀ (remaining attempt : Nat),
      (∀ i, attempt ≤ i → i ≤ attempt + remaining → invoke i = .error (es i)) →
      get_answer_aux invoke backoff remaining attempt =
        (.error (.wrapped (es (attempt + remaining))),
          (List.range remaining).map
            (fun k => backoff * (((attempt + k : Nat) : ℚ) + 1))) := by
  intro remaining
  induction remaining with
  | zero =>
    intro attempt h
    have h0 := h attempt le_rfl (by omega)
    simp [get_answer_aux, h0]
  | succ r ih =>
    intro attempt h
    have h0 := h attempt le_rfl (by omega)
    have ih' := ih (attempt + 1) (fun i h1 h2 => h i (by omega) (by omega))
    simp only [get_answer_aux, h0, ih', Prod.mk.injEq]
    constructor
    · rw [show attempt + 1 + r = attempt + (r + 1) from by omega]
    · rw [List.range_succ_eq_map, List.map_cons, List.map_map, List.cons_eq_cons]
      constructor
      · show backoff * ((attempt : ℚ) + 1) = backoff * (((attempt + 0 : Nat) : ℚ) + 1)
        norm_num
      · apply List.map_congr_left
        intro k _
        show backoff * (((attempt + 1 + k : Nat) : ℚ) + 1) =
          backoff * (((attempt + (k + 1) : Nat) : ℚ) + 1)
        rw [show attempt + 1 + k = attempt + (k + 1) from by omega]

/-- C9: when every language-model invocation raises, `get_answer` retries up
to the configured maximum number of retries, sleeping
`wait = backoff_sec * attempt_number` (attempt numbers 1, 2, ..., retries)
before each retry, and finally returns the terminal LLM error wrapping the
last underlying failure. -/
theorem get_answer_retries_exhausted (invoke : Nat → Except Str (Option Str))
    (retries : Nat) (backoff : ℚ) (es : Nat → Str)
    (hfail : ∀ i, i < retries + 1 → invoke i = .error (es i)) :
    get_answer invoke retries backoff =
      (.error (.wrapped (es retries)),
        (List.range retries).map (fun (k : Nat) => backoff * ((k : ℚ) + 1))) := by
  have h := get_answer_aux_all_fail invoke backoff es retries 0
    (fun i h1 h2 => hfail i (by omega))
  rw [get_answer, h]
  simp only [Nat.zero_add]

/-- C9 (witness): three attempts all failing with `retries = 2`,
`backoff = 1/2` produce sleeps `[1/2, 1]` and the wrapped terminal error. -/
theorem get_answer_retries_exhausted_witness :
    get_answer invW 2 (1 / 2 : ℚ) =
      (.error (.wrapped ("boom".data)),
        (List.range 2).map (fun (k : Nat) => (1 / 2 : ℚ) * ((k : ℚ) + 1))) :=
  get_answer_retries_exhausted invW 2 (1 / 2) (fun _ => "boom".data)
    (fun _ _ => rfl)

/-- If every hit's stripped content is blank, the context loop emits no
blocks. -/
theorem context_blocks_blank (hits : List Hit)
    (h : ∀ x ∈ hits, strip (x.content.getD []) = []) :
    ∀ idx, context_blocks idx hits = [] := by
  induction hits with
  | nil => intro idx; rfl
  | cons x rest ih =>
    intro idx
    have hx := h x (by simp)
    simp [context_blocks, hx, ih (fun y hy => h y (by simp [hy]))]

/-- C5: `answer` with zero search hits returns the empty answer paired with
the empty hit list; `answer` whose hits all have blank content (so the
assembled context is empty) returns the empty answer paired with the full
original hit list; in both cases the language-model collaborator is called
zero times. -/
theorem answer_empty_and_blank (cfg : ServiceCfg) (question : Str)
    (top_k : Nat) :
    (cfg.search question top_k = [] →
      answer cfg question top_k = (([], []), 0)) ∧
    (cfg.search question top_k ≠ [] →
      (∀ x ∈ cfg.search question top_k, strip (x.content.getD []) = []) →
      answer cfg question top_k = (([], cfg.search question top_k), 0)) := by
  constructor
  · intro h
    simp [answer, h]
  · intro hne hblank
    have hctx : format_context cfg.context_limit (cfg.search question top_k) = [] := by
      rw [format_context, context_blocks_blank _
        (fun y hy => hblank y (List.take_subset _ _ hy)) 1]
      rfl
    simp [answer, hctx, hne]

/-- C5 (witness): a service whose search returns one blank-content hit
answers with the empty string, the full hit list, and zero LLM calls. -/
theorem answer_empty_and_blank_witness :
    answer cfgW ("q".data) 5 = (([], [hitW]), 0) :=
  (answer_empty_and_blank cfgW ("q".data) 5).2 (by decide) (by decide)

/-- The first element of a `dropWhile` result fails the predicate. -/
theorem dropWhile_head_false {α : Type} (p : α → Bool) :
    ∀ (l : List α) (x : α) (xs : List α), l.dropWhile p = x :: xs → p x = false := by
  intro l
  induction l with
  | nil =>
    intro x xs h
    simp at h
  | cons a t ih =>
    intro x xs h
    by_cases hpa : p a
    · rw [List.dropWhile_cons, if_pos hpa] at h
      exact ih x xs h
    · rw [List.dropWhile_cons, if_neg hpa] at h
      cases h
      simpa using hpa

/-- A non-empty `strip_right` result ends in a non-whitespace character. -/
theorem strip_right_ends (s : Str) (h : strip_right s ≠ []) :
    ∃ ys c, strip_right s = ys ++ [c] ∧ isWS c = false := by
  unfold strip_right at h ⊢
  cases hd : s.reverse.dropWhile isWS with
  | nil => rw [hd] at h; simp at h
  | cons c zs =>
    refine ⟨zs.reverse, c, ?_, dropWhile_head_false isWS _ _ _ hd⟩
    rw [List.reverse_cons]

/-- `strip_right` leaves a list ending in a non-whitespace character intact. -/
theorem strip_right_append_last (xs : Str) (c : Char) (hc : isWS c = false) :
    strip_right (xs ++ [c]) = xs ++ [c] := by
  unfold strip_right
  have h1 : (xs ++ [c]).reverse = c :: xs.reverse := by simp
  rw [h1, List.dropWhile_cons, if_neg (by simp [hc])]
  simp

/-- `dropWhile` on a list ending in a failing character keeps that character. -/
theorem dropWhile_append_last (p : Char → Bool) (c : Char) (hc : p c = false) :
    ∀ xs : Str, ∃ ws, (xs ++ [c]).dropWhile p = ws ++ [c] := by
  intro xs
  induction xs with
  | nil => exact ⟨[], by simp [List.dropWhile_cons, hc]⟩
  | cons a t ih =>
    by_cases hpa : p a
    · obtain ⟨ws, hw⟩ := ih
      refine ⟨ws, ?_⟩
      rw [List.cons_append, List.dropWhile_cons, if_pos hpa, hw]
    · refine ⟨a :: t, ?_⟩
      rw [List.cons_append, List.dropWhile_cons, if_neg hpa]

/-- Stripping a list that ends in a non-whitespace character is non-empty. -/
theorem strip_append_last_ne_nil (xs : Str) (c : Char) (hc : isWS c = false) :
    strip (xs ++ [c]) ≠ [] := by
  unfold strip strip_left
  obtain ⟨ws, hw⟩ := dropWhile_append_last isWS c hc xs
  rw [hw, strip_right_append_last ws c hc]
  simp

/-- A non-empty block in stripped form ends in a non-whitespace character. -/
theorem goodblock_ends (b : Str) (hb : GoodBlock b) :
    ∃ ys c, b = ys ++ [c] ∧ isWS c = false := by
  obtain ⟨hne, t, ht⟩ := hb
  have h : strip t ≠ [] := by rw [← ht]; exact hne
  obtain ⟨ys, c, hyc, hc⟩ := strip_right_ends (strip_left t) h
  exact ⟨ys, c, by rw [ht]; exact hyc, hc⟩

/-- One accumulation step preserves block goodness. -/
theorem acc_step_good (cur b : Str) (hb : GoodBlock b) :
    GoodBlock (acc_step cur b) := by
  unfold acc_step
  by_cases hcur : cur = []
  · simpa [hcur]
  · rw [if_neg hcur]
    obtain ⟨ys, c, hbc, hc⟩ := goodblock_ends b hb
    refine ⟨?_, cur ++ sep ++ b, rfl⟩
    rw [hbc, show cur ++ sep ++ (ys ++ [c]) = (cur ++ sep ++ ys) ++ [c] from by simp]
    exact strip_append_last_ne_nil _ c hc

/-- Folding accumulation steps over good blocks preserves goodness. -/
theorem foldl_acc_good :
    ∀ (bs : List Str) (cur : Str), (∀ b ∈ bs, GoodBlock b) → GoodBlock cur →
      GoodBlock (bs.foldl acc_step cur) := by
  intro bs
  induction bs with
  | nil => intro cur _ hcur; exact hcur
  | cons b t ih =>
    intro cur hgood hcur
    simp only [List.foldl_cons]
    exact ih _ (fun x hx => hgood x (by simp [hx]))
      (acc_step_good cur b (hgood b (by simp)))

/-- The accumulated chunk of a non-empty run of good blocks is itself good
(in particular non-empty). -/
theorem acc_of_good (bs : List Str) (hne : bs ≠ [])
    (hgood : ∀ b ∈ bs, GoodBlock b) : GoodBlock (acc_of bs) := by
  cases bs with
  | nil => exact absurd rfl hne
  | cons b t =>
    unfold acc_of
    simp only [List.foldl_cons]
    rw [show acc_step [] b = b from by simp [acc_step]]
    exact foldl_acc_good t b (fun x hx => hgood x (by simp [hx])) (hgood b (by simp))

/-- Every block produced by `md_to_blocks` is non-empty and in stripped form. -/
theorem md_to_blocks_good (md : Str) : ∀ b ∈ md_to_blocks md, GoodBlock b := by
  intro b hb
  unfold md_to_blocks at hb
  simp only [List.mem_filter, List.mem_map, decide_eq_true_eq] at hb
  obtain ⟨⟨t, _, ht⟩, hne⟩ := hb
  exact ⟨hne, t, ht.symm⟩

/-- Every chunk emitted by the hard-split loop is the stripped decoding of a
non-empty token window. -/
theorem split_loop_fuel_windows (tok : Tokenizer) (toks : List Nat) :
    ∀ (fuel start : Nat) (c : Str), c ∈ split_loop_fuel tok toks fuel start →
      ∃ w : List Nat, w ≠ [] ∧ c = strip (tok.decode w) := by
  intro fuel
  induction fuel with
  | zero =>
    intro start c hc
    simp [split_loop_fuel] at hc
  | succ f ih =>
    intro start c hc
    rw [split_loop_fuel_succ] at hc
    by_cases hlt : start < toks.length
    · rw [if_pos hlt] at hc
      rcases List.mem_cons.mp hc with h | h
      · refine ⟨(toks.drop start).take tok.max_tokens, ?_, h⟩
        have hdrop : toks.drop start ≠ [] := by
          intro hnil
          have := List.drop_eq_nil_iff.mp hnil
          omega
        have hmax : 0 < tok.max_tokens :=
          Nat.lt_of_le_of_lt (Nat.zero_le _) tok.overlap_lt
        intro htake
        rcases List.take_eq_nil_iff.mp htake with h1 | h1
        · omega
        · exact hdrop h1
      · exact ih _ c h
    · rw [if_neg hlt] at hc
      simp at hc

/-- Every chunk emitted by `_split_long_block` is the stripped decoding of a
non-empty token window. -/
theorem split_long_block_windows (tok : Tokenizer) (b : Str) :
    ∀ c ∈ tok.split_long_block b,
      ∃ w : List Nat, w ≠ [] ∧ c = strip (tok.decode w) := by
  intro c hc
  exact split_loop_fuel_windows tok (tok.encode b) _ 0 c hc

/-- `chunk_aux` on the empty block list. -/
theorem chunk_aux_nil (tok : Tokenizer) (current : Str) :
    chunk_aux tok current [] = if current = [] then [] else [current] := rfl

/-- `chunk_aux` on a cons, phrased through `acc_step`. -/
theorem chunk_aux_cons (tok : Tokenizer) (current block : Str)
    (rest : List Str) :
    chunk_aux tok current (block :: rest) =
      if tok.count_tokens (acc_step current block) ≤ tok.max_tokens then
        chunk_aux tok (acc_step current block) rest
      else
        (if current = [] then [] else [current]) ++
          (if tok.max_tokens < tok.count_tokens block then
            tok.split_long_block block ++ chunk_aux tok [] rest
          else chunk_aux tok block rest) := rfl

/-- Structure of the chunker loop: its output decomposes into well-formed
groups (runs of merged consecutive blocks, or hard-split single blocks) whose
source blocks, concatenated in order, are exactly the pending blocks followed
by the remaining input blocks. -/
theorem chunk_aux_spec (tok : Tokenizer) :
    ∀ (blocks : List Str) (current : Str) (pend : List Str),
      (∀ b ∈ blocks, GoodBlock b) →
      (∀ b ∈ pend, GoodBlock b) →
      current = acc_of pend →
      (pend ≠ [] → GoodBlock current) →
      ∃ gs : List ChunkGrp,
        gs.flatMap ChunkGrp.src = pend ++ blocks ∧
        chunk_aux tok current blocks = gs.flatMap (ChunkGrp.out tok) ∧
        ∀ g ∈ gs, ChunkGrp.wf g ∧ ∀ b ∈ g.src, GoodBlock b := by
  intro blocks
  induction blocks with
  | nil =>
    intro current pend hbl hpend hacc hgood
    by_cases hcur : current = []
    · have hpe : pend = [] := by
        by_contra hne
        exact absurd hcur (hgood hne).1
      refine ⟨[], by simp [hpe], ?_, by simp⟩
      rw [chunk_aux_nil, if_pos hcur]
      simp
    · have hpe : pend ≠ [] := by
        intro h
        rw [h] at hacc
        exact hcur (by simpa [acc_of] using hacc)
      refine ⟨[ChunkGrp.run pend], by simp [ChunkGrp.src], ?_, ?_⟩
      · rw [chunk_aux_nil, if_neg hcur]
        simp [ChunkGrp.out, ← hacc]
      · intro g hg
        simp at hg
        subst hg
        exact ⟨hpe, hpend⟩
  | cons block rest ih =>
    intro current pend hbl hpend hacc hgood
    have hgb : GoodBlock block := hbl block (by simp)
    have hrest : ∀ b ∈ rest, GoodBlock b := fun b hb => hbl b (by simp [hb])
    rw [chunk_aux_cons]
    by_cases hfit : tok.count_tokens (acc_step current block) ≤ tok.max_tokens
    · rw [if_pos hfit]
      have hacc' : acc_step current block = acc_of (pend ++ [block]) := by
        rw [hacc, acc_of, acc_of, List.foldl_append]
        simp
      obtain ⟨gs, h1, h2, h3⟩ := ih (acc_step current block) (pend ++ [block])
        hrest
        (by
          intro b hb
          rcases List.mem_append.mp hb with h | h
          · exact hpend b h
          · simp at h
            subst h
            exact hgb)
        hacc' (fun _ => acc_step_good current block hgb)
      refine ⟨gs, ?_, h2, h3⟩
      rw [h1, List.append_assoc]
      simp
    · rw [if_neg hfit]
      by_cases hlong : tok.max_tokens < tok.count_tokens block
      · rw [if_pos hlong]
        obtain ⟨gs, h1, h2, h3⟩ := ih [] [] hrest (by simp) (by simp [acc_of])
          (by simp)
        by_cases hcur : current = []
        · have hpe : pend = [] := by
            by_contra hne
            exact absurd hcur (hgood hne).1
          refine ⟨ChunkGrp.hard block :: gs, ?_, ?_, ?_⟩
          · simp only [List.flatMap_cons, ChunkGrp.src]
            simp [h1, hpe]
          · rw [if_pos hcur]
            simp only [List.flatMap_cons, ChunkGrp.out]
            simp [h2]
          · intro g hg
            rcases List.mem_cons.mp hg with h | h
            · subst h
              refine ⟨trivial, ?_⟩
              intro b hb
              simp [ChunkGrp.src] at hb
              subst hb
              exact hgb
            · exact h3 g h
        · have hpe : pend ≠ [] := by
            intro h
            rw [h] at hacc
            exact hcur (by simpa [acc_of] using hacc)
          refine ⟨ChunkGrp.run pend :: ChunkGrp.hard block :: gs, ?_, ?_, ?_⟩
          · simp only [List.flatMap_cons, ChunkGrp.src]
            simp [h1]
          · rw [if_neg hcur]
            simp only [List.flatMap_cons, ChunkGrp.out]
            simp [h2, ← hacc]
          · intro g hg
            rcases List.mem_cons.mp hg with h | h
            · subst h
              exact ⟨hpe, hpend⟩
            rcases List.mem_cons.mp h with h' | h'
            · subst h'
              refine ⟨trivial, ?_⟩
              intro b hb
              simp [ChunkGrp.src] at hb
              subst hb
              exact hgb
            · exact h3 g h'
      · rw [if_neg hlong]
        obtain ⟨gs, h1, h2, h3⟩ := ih block [block] hrest
          (by
            intro b hb
            simp at hb
            subst hb
            exact hgb)
          (by simp [acc_of, acc_step]) (fun _ => hgb)
        by_cases hcur : current = []
        · have hpe : pend = [] := by
            by_contra hne
            exact absurd hcur (hgood hne).1
          refine ⟨gs, ?_, ?_, h3⟩
          · rw [h1]
            simp [hpe]
          · rw [if_pos hcur]
            simpa using h2
        · have hpe : pend ≠ [] := by
            intro h
            rw [h] at hacc
            exact hcur (by simpa [acc_of] using hacc)
          refine ⟨ChunkGrp.run pend :: gs, ?_, ?_, ?_⟩
          · simp only [List.flatMap_cons, ChunkGrp.src]
            simp [h1]
          · rw [if_neg hcur]
            simp only [List.flatMap_cons, ChunkGrp.out]
            simp [h2, ← hacc]
          · intro g hg
            rcases List.mem_cons.mp hg with h | h
            · subst h
              exact ⟨hpe, hpend⟩
            · exact h3 g h

/-- C2 (amended): `chunk_markdown`'s output decomposes, in order, into groups
that consume the source blocks exactly in their original order (so chunk order
matches source block order), and no emitted chunk is empty *provided* the
tokenizer's decode of every non-empty token window strips to a non-empty
string.  (That proviso is where the original claim fails: the code appends
`decoded.strip()` from `_split_long_block` unconditionally, so a window whose
decoding is all whitespace becomes an empty chunk.) -/
theorem chunk_markdown_order_nonempty (tok : Tokenizer) (md : Str)
    (hdec : ∀ ts : List Nat, ts ≠ [] → strip (tok.decode ts) ≠ []) :
    ∃ gs : List ChunkGrp,
      gs.flatMap ChunkGrp.src = md_to_blocks md ∧
      chunk_markdown tok md = gs.flatMap (ChunkGrp.out tok) ∧
      ∀ c ∈ chunk_markdown tok md, c ≠ [] := by
  obtain ⟨gs, h1, h2, h3⟩ := chunk_aux_spec tok (md_to_blocks md) [] []
    (md_to_blocks_good md) (by simp) (by simp [acc_of]) (by simp)
  refine ⟨gs, by simpa using h1, h2, ?_⟩
  intro c hc
  simp only [chunk_markdown] at hc
  rw [h2] at hc
  simp only [List.mem_flatMap] at hc
  obtain ⟨g, hg, hcg⟩ := hc
  obtain ⟨hwf, hsrc⟩ := h3 g hg
  cases g with
  | run bs =>
    simp only [ChunkGrp.out, List.mem_singleton] at hcg
    subst hcg
    exact (acc_of_good bs hwf hsrc).1
  | hard b =>
    obtain ⟨w, hw, hcw⟩ := split_long_block_windows tok b c hcg
    rw [hcw]
    exact hdec w hw

/-- C2 (witness): the order-and-nonemptiness decomposition on a concrete
tokenizer whose decode is never blank. -/
theorem chunk_markdown_order_nonempty_witness :
    (∀ ts : List Nat, ts ≠ [] → strip (xtok.decode ts) ≠ []) ∧
    ∃ gs : List ChunkGrp,
      gs.flatMap ChunkGrp.src = md_to_blocks ("hello\n\nworld".data) ∧
      chunk_markdown xtok ("hello\n\nworld".data) =
        gs.flatMap (ChunkGrp.out xtok) ∧
      ∀ c ∈ chunk_markdown xtok ("hello\n\nworld".data), c ≠ [] := by
  have hdec : ∀ ts : List Nat, ts ≠ [] → strip (xtok.decode ts) ≠ [] := by
    intro ts _
    show strip ['x'] ≠ []
    decide
  exact ⟨hdec, chunk_markdown_order_nonempty xtok ("hello\n\nworld".data) hdec⟩

/-- C2 (counterexample): as stated, the claim is false — with a tokenizer
under which each character is one token (so a window inside a long interior
whitespace run decodes to pure whitespace), chunking the single block
`"a    b"` with `max_tokens=3, overlap=1` hard-splits it into the windows
`"a  "`, `"   "`, `" b"`, and the middle window's stripped decoding is the
empty string, which is emitted as a chunk. -/
theorem chunk_markdown_empty_chunk_counterexample :
    ([] : Str) ∈ chunk_markdown ctok ("a    b".data) := by decide

/-- `delete_doc` with a `doc_id` present succeeds: loads, deletes the matching
rows, and flushes only when the deleted count is non-zero. -/
theorem delete_doc_some (st : Store) (d : Int) (owner_id : Option Int) :
    delete_doc st (some d) none owner_id =
      (.ok ({ st with
                rows := st.rows.filter (fun r =>
                  !matchesExpr (delete_expr_parts (some d) none owner_id) r) },
        (st.rows.filter
          (matchesExpr (delete_expr_parts (some d) none owner_id))).length),
       [StoreOp.load,
        StoreOp.deleteOp (delete_expr_parts (some d) none owner_id)] ++
         (if (st.rows.filter
            (matchesExpr (delete_expr_parts (some d) none owner_id))).length = 0
          then [] else [StoreOp.flush])) := by
  simp [delete_doc]

/-- `add_chunks` with consistent lengths and non-empty contents succeeds,
appending the new rows and returning their sequential ids. -/
theorem add_chunks_ok (st : Store) (owner_id : Option Int) (doc_id : Int)
    (source_path : Str) (sections : List (Option Str)) (contents : List Str)
    (embeddings : List (List ℚ))
    (hlen : contents.length = embeddings.length)
    (hsec : sections.length = contents.length) (hne : contents ≠ []) :
    add_chunks st owner_id doc_id source_path sections contents embeddings =
      (.ok ({ rows := st.rows ++ mk_rows st.nextPk owner_id doc_id source_path sections contents embeddings,
              nextPk := st.nextPk + contents.length },
            (List.range contents.length).map (fun i => st.nextPk + i)),
        [StoreOp.insertOp contents.length, StoreOp.flush]) := by
  have hsne : sections ≠ [] := by
    intro h
    subst h
    simp at hsec
    exact hne (List.length_eq_zero.mp hsec.symm)
  simp [add_chunks, hlen, hsne, hsec]

/-- Every row inserted by `mk_rows` carries the given document and owner. -/
theorem mk_rows_fields (startPk : Nat) (owner_id : Option Int) (doc_id : Int)
    (source_path : Str) (secs : List (Option Str)) (contents : List Str)
    (embs : List (List ℚ)) :
    ∀ r ∈ mk_rows startPk owner_id doc_id source_path secs contents embs,
      r.doc_id = doc_id ∧ r.owner_id = owner_id := by
  intro r hr
  simp only [mk_rows, List.mem_map] at hr
  obtain ⟨i, _, hi⟩ := hr
  subst hi
  exact ⟨rfl, rfl⟩

/-- A row of the (document, owner) pair targeted by `index_file`'s delete
matches the delete filter. -/
theorem pair_matches_delete (d : Int) (owner_id : Option Int) (r : Row)
    (hd : r.doc_id = d) (ho : r.owner_id = some (owner_value_of owner_id)) :
    matchesExpr (delete_expr_parts (some d) none owner_id) r = true := by
  cases owner_id with
  | none => simp [delete_expr_parts, matchesExpr, matchesCond, hd]
  | some o =>
    simp only [owner_value_of] at ho
    simp [delete_expr_parts, matchesExpr, matchesCond, hd, ho]

/-- The full behaviour of a successful, chunk-producing `index_file` call:
the final store, the returned result, and the operation trace (load, delete,
conditional flush, insert, flush — the delete strictly precedes the insert). -/
theorem index_file_ok (env : PipelineEnv) (st : Store) (input_path : Str)
    («section» : Str) (owner_id : Option Int)
    (hch : pipeline_chunks env input_path ≠ [])
    (hemb : (env.embed (pipeline_chunks env input_path)).length =
      (pipeline_chunks env input_path).length) :
    index_file env st input_path «section» owner_id =
      (.ok ({ doc_id := pipeline_doc_id env input_path,
              chunk_ids := (List.range (pipeline_chunks env input_path).length).map
                (fun i => st.nextPk + i),
              source_path := input_path,
              owner_id := some (owner_value_of owner_id) },
            { rows := (st.rows.filter (fun r =>
                  !matchesExpr (delete_expr_parts
                    (some (pipeline_doc_id env input_path)) none owner_id) r)) ++
                inserted_rows env st input_path «section» owner_id,
              nextPk := st.nextPk + (pipeline_chunks env input_path).length }),
        ([StoreOp.load,
          StoreOp.deleteOp (delete_expr_parts
            (some (pipeline_doc_id env input_path)) none owner_id)] ++
          (if (st.rows.filter (matchesExpr (delete_expr_parts
              (some (pipeline_doc_id env input_path)) none owner_id))).length = 0
           then [] else [StoreOp.flush])) ++
          [StoreOp.insertOp (pipeline_chunks env input_path).length,
           StoreOp.flush]) := by
  have hch' : chunk_markdown env.tok (env.convert input_path).2 ≠ [] := hch
  have hdd := delete_doc_some st (pipeline_doc_id env input_path) owner_id
  have hac := add_chunks_ok
    { st with
        rows := st.rows.filter (fun r =>
          !matchesExpr (delete_expr_parts
            (some (pipeline_doc_id env input_path)) none owner_id) r) }
    (some (owner_value_of owner_id)) (pipeline_doc_id env input_path) input_path
    (List.replicate (pipeline_chunks env input_path).length (some «section»))
    (pipeline_chunks env input_path)
    (env.embed (pipeline_chunks env input_path))
    hemb.symm (by simp) hch
  simp only [index_file, if_neg hch']
  rw [show pipeline_doc_id env input_path = (env.convert input_path).1 from rfl]
    at hdd hac
  rw [show pipeline_chunks env input_path =
    chunk_markdown env.tok (env.convert input_path).2 from rfl] at hac
  rw [hdd]
  dsimp only
  rw [hac]
  dsimp only
  simp [inserted_rows, pipeline_chunks, pipeline_doc_id]

/-- C1: a chunk-producing `index_file` call is a replace, not an append — it
first issues a delete for the (doc_id, owner_id) pair (the delete operation
strictly precedes the insert in the store trace), and afterwards the store's
rows for that (document, owner) pair are exactly the newly inserted chunk
rows. -/
theorem index_file_replaces (env : PipelineEnv) (st : Store) (input_path : Str)
    («section» : Str) (owner_id : Option Int)
    (hch : pipeline_chunks env input_path ≠ [])
    (hemb : (env.embed (pipeline_chunks env input_path)).length =
      (pipeline_chunks env input_path).length) :
    ∃ (st2 : Store) (flushPart : List StoreOp),
      index_file env st input_path «section» owner_id =
        (.ok ({ doc_id := pipeline_doc_id env input_path,
                chunk_ids := (List.range (pipeline_chunks env input_path).length).map
                  (fun i => st.nextPk + i),
                source_path := input_path,
                owner_id := some (owner_value_of owner_id) }, st2),
          [StoreOp.load,
           StoreOp.deleteOp (delete_expr_parts
             (some (pipeline_doc_id env input_path)) none owner_id)] ++
            flushPart ++
            [StoreOp.insertOp (pipeline_chunks env input_path).length,
             StoreOp.flush]) ∧
      (flushPart = [] ∨ flushPart = [StoreOp.flush]) ∧
      pair_rows (pipeline_doc_id env input_path) (owner_value_of owner_id)
          st2.rows =
        inserted_rows env st input_path «section» owner_id := by
  have hok := index_file_ok env st input_path «section» owner_id hch hemb
  refine
    ⟨{ rows :=
         (st.rows.filter (fun r =>
             !matchesExpr (delete_expr_parts
               (some (pipeline_doc_id env input_path)) none owner_id) r)) ++
           inserted_rows env st input_path «section» owner_id,
       nextPk := st.nextPk + (pipeline_chunks env input_path).length },
     (if (st.rows.filter (matchesExpr (delete_expr_parts
          (some (pipeline_doc_id env input_path)) none owner_id))).length = 0
      then [] else [StoreOp.flush]), ?_, ?_, ?_⟩
  · rw [hok]
  · by_cases h : (st.rows.filter (matchesExpr (delete_expr_parts
        (some (pipeline_doc_id env input_path)) none owner_id))).length = 0
    · left
      simp [h]
    · right
      simp [h]
  · rw [pair_rows, List.filter_append]
    have h1 : (st.rows.filter (fun r =>
        !matchesExpr (delete_expr_parts
          (some (pipeline_doc_id env input_path)) none owner_id) r)).filter
          (fun r => matchesCond r (Cond.docEq (pipeline_doc_id env input_path)) &&
            matchesCond r (Cond.ownerEq (owner_value_of owner_id))) = [] := by
      rw [List.filter_filter]
      apply List.filter_eq_nil_iff.mpr
      intro r _
      by_cases hd : r.doc_id = pipeline_doc_id env input_path
      · by_cases ho : r.owner_id = some (owner_value_of owner_id)
        · simp [pair_matches_delete _ owner_id r hd ho, matchesCond, hd, ho]
        · simp [matchesCond, ho]
      · simp [matchesCond, hd]
    have h2 : (inserted_rows env st input_path «section» owner_id).filter
        (fun r => matchesCond r (Cond.docEq (pipeline_doc_id env input_path)) &&
          matchesCond r (Cond.ownerEq (owner_value_of owner_id))) =
        inserted_rows env st input_path «section» owner_id := by
      apply List.filter_eq_self.mpr
      intro r hr
      obtain ⟨hd, ho⟩ := mk_rows_fields _ _ _ _ _ _ _ r hr
      simp [matchesCond, hd, ho]
    rw [h1, h2, List.nil_append]

/-- C1 (witness): re-indexing document 7 for owner 2 over a store holding a
stale chunk of that document replaces it — afterwards the (7, 2) rows are
exactly the newly inserted ones. -/
theorem index_file_replaces_witness :
    ∃ (st2 : Store) (flushPart : List StoreOp),
      index_file envW stW ("f".data) ("s".data) (some 2) =
        (.ok ({ doc_id := pipeline_doc_id envW ("f".data),
                chunk_ids := (List.range (pipeline_chunks envW ("f".data)).length).map
                  (fun i => stW.nextPk + i),
                source_path := "f".data,
                owner_id := some (owner_value_of (some 2)) }, st2),
          [StoreOp.load,
           StoreOp.deleteOp (delete_expr_parts
             (some (pipeline_doc_id envW ("f".data))) none (some 2))] ++
            flushPart ++
            [StoreOp.insertOp (pipeline_chunks envW ("f".data)).length,
             StoreOp.flush]) ∧
      (flushPart = [] ∨ flushPart = [StoreOp.flush]) ∧
      pair_rows (pipeline_doc_id envW ("f".data)) (owner_value_of (some 2))
          st2.rows =
        inserted_rows envW stW ("f".data) ("s".data) (some 2) :=
  index_file_replaces envW stW ("f".data) ("s".data) (some 2)
    (by decide) (by decide)

/-- C10: `index_file` with `owner_id` omitted inserts the chunks with the
sentinel owner value `-1` (not a null owner) and reports `owner_id = -1` in
the result, while the preceding delete is issued with the `doc_id`-only
filter — no owner condition — and therefore removes the document's chunks
across all owners: afterwards the document's rows over *all* owners are
exactly the newly inserted sentinel-owner rows. -/
theorem index_file_default_owner (env : PipelineEnv) (st : Store)
    (input_path : Str) («section» : Str)
    (hch : pipeline_chunks env input_path ≠ [])
    (hemb : (env.embed (pipeline_chunks env input_path)).length =
      (pipeline_chunks env input_path).length) :
    ∃ (st2 : Store) (flushPart : List StoreOp),
      index_file env st input_path «section» none =
        (.ok ({ doc_id := pipeline_doc_id env input_path,
                chunk_ids := (List.range (pipeline_chunks env input_path).length).map
                  (fun i => st.nextPk + i),
                source_path := input_path,
                owner_id := some (-1) }, st2),
          [StoreOp.load,
           StoreOp.deleteOp [Cond.docEq (pipeline_doc_id env input_path)]] ++
            flushPart ++
            [StoreOp.insertOp (pipeline_chunks env input_path).length,
             StoreOp.flush]) ∧
      (flushPart = [] ∨ flushPart = [StoreOp.flush]) ∧
      (∀ r ∈ inserted_rows env st input_path «section» none,
        r.owner_id = some (-1)) ∧
      doc_rows (pipeline_doc_id env input_path) st2.rows =
        inserted_rows env st input_path «section» none := by
  have hok := index_file_ok env st input_path «section» none hch hemb
  have hparts : delete_expr_parts (some (pipeline_doc_id env input_path))
      none none = [Cond.docEq (pipeline_doc_id env input_path)] := rfl
  have hov : owner_value_of none = (-1 : Int) := rfl
  rw [hparts, hov] at hok
  refine
    ⟨{ rows :=
         (st.rows.filter (fun r =>
             !matchesExpr [Cond.docEq (pipeline_doc_id env input_path)] r)) ++
           inserted_rows env st input_path «section» none,
       nextPk := st.nextPk + (pipeline_chunks env input_path).length },
     (if (st.rows.filter
          (matchesExpr [Cond.docEq (pipeline_doc_id env input_path)])).length = 0
      then [] else [StoreOp.flush]), ?_, ?_, ?_, ?_⟩
  · rw [hok]
  · by_cases h : (st.rows.filter
        (matchesExpr [Cond.docEq (pipeline_doc_id env input_path)])).length = 0
    · left
      simp [h]
    · right
      simp [h]
  · intro r hr
    have h := (mk_rows_fields _ _ _ _ _ _ _ r hr).2
    rw [h, hov]
  · rw [doc_rows, List.filter_append]
    have h1 : (st.rows.filter (fun r =>
        !matchesExpr [Cond.docEq (pipeline_doc_id env input_path)] r)).filter
          (fun r => matchesCond r (Cond.docEq (pipeline_doc_id env input_path))) =
        [] := by
      rw [List.filter_filter]
      apply List.filter_eq_nil_iff.mpr
      intro r _
      simp [matchesExpr, matchesCond]
    have h2 : (inserted_rows env st input_path «section» none).filter
        (fun r => matchesCond r (Cond.docEq (pipeline_doc_id env input_path))) =
        inserted_rows env st input_path «section» none := by
      apply List.filter_eq_self.mpr
      intro r hr
      have hd := (mk_rows_fields _ _ _ _ _ _ _ r hr).1
      simp [matchesCond, hd]
    rw [h1, h2, List.nil_append]

/-- C10 (witness): indexing with owner omitted over a store holding a chunk
of the same document owned by owner 2 removes that chunk too and stores the
new chunks under the sentinel owner `-1`. -/
theorem index_file_default_owner_witness :
    ∃ (st2 : Store) (flushPart : List StoreOp),
      index_file envW stW ("f".data) ("s".data) none =
        (.ok ({ doc_id := pipeline_doc_id envW ("f".data),
                chunk_ids := (List.range (pipeline_chunks envW ("f".data)).length).map
                  (fun i => stW.nextPk + i),
                source_path := "f".data,
                owner_id := some (-1) }, st2),
          [StoreOp.load,
           StoreOp.deleteOp [Cond.docEq (pipeline_doc_id envW ("f".data))]] ++
            flushPart ++
            [StoreOp.insertOp (pipeline_chunks envW ("f".data)).length,
             StoreOp.flush]) ∧
      (flushPart = [] ∨ flushPart = [StoreOp.flush]) ∧
      (∀ r ∈ inserted_rows envW stW ("f".data) ("s".data) none,
        r.owner_id = some (-1)) ∧
      doc_rows (pipeline_doc_id envW ("f".data)) st2.rows =
        inserted_rows envW stW ("f".data) ("s".data) none :=
  index_file_default_owner envW stW ("f".data) ("s".data) (by decide) (by decide)
